import Mathlib

/-!
Verification of the statistics engine of `scripts/analyze.py` and
`scripts/real-analysis.py` (the pure-Python fallback paths of the latter,
which are the ones the specification describes).

Modelling conventions:
* Python floats are modelled as exact rationals (`ℚ`); the claims are about
  the ideal real-arithmetic behaviour of the formulas, not about IEEE-754
  rounding.
* `math.sqrt` and `math.exp` are transcendental, so they are passed in as
  explicit function parameters `sq ex : ℚ → ℚ`; theorems assume only the
  properties of them that the real functions satisfy (for instance
  `sq 0 = 0`, `ex 0 = 1`, interval bounds), and witnesses instantiate them
  with concrete rational functions satisfying those hypotheses.
* Python's `ZeroDivisionError` and `IndexError` are modelled with an
  `Except Err` monad: every Python `/` whose divisor could be zero goes
  through `divE`, every list subscript through `idxE`.
* `Err.insufficientSampleSize` is the condition named by the spec's error
  taxonomy; no code path of either script ever produces it, which is what
  some of the error-handling claims turn on.
-/

inductive Err where
  | divisionByZero
  | indexOutOfRange
  | insufficientSampleSize
deriving DecidableEq, Repr

instance {α : Type} [DecidableEq α] : DecidableEq (Except Err α) := fun a b =>
  match a, b with
  | .ok x, .ok y => if h : x = y then .isTrue (by rw [h]) else .isFalse (by simp [h])
  | .error e, .error f => if h : e = f then .isTrue (by rw [h]) else .isFalse (by simp [h])
  | .ok _, .error _ => .isFalse (by simp)
  | .error _, .ok _ => .isFalse (by simp)

/-- Python float division: raises `ZeroDivisionError` on a zero divisor. -/
def divE (a b : ℚ) : Except Err ℚ :=
  if b = 0 then .error .divisionByZero else .ok (a / b)

/-- Python list subscript at a non-negative index: raises `IndexError` when
the index is out of bounds.  (Negative Python indices wrap around; every
claim restricts attention to percentiles `p ∈ [0,100]`, where all indices
the code computes are non-negative.) -/
def idxE (l : List ℚ) (i : ℕ) : Except Err ℚ :=
  match l.get? i with
  | some v => .ok v
  | none => .error .indexOutOfRange

/-- Python's `int()` on a float: truncation toward zero. -/
def pyInt (q : ℚ) : ℤ :=
  if 0 ≤ q then ⌊q⌋ else ⌈q⌉

/-- Python's `round(q, nd)`: round half to even at `nd` decimal digits
(idealised to exact decimal arithmetic; no claim inspects a rounded value). -/
def pyRound (q : ℚ) (nd : ℕ) : ℚ :=
  let m : ℚ := (10 : ℚ) ^ nd
  let s := q * m
  let fl := ⌊s⌋
  let frac := s - (fl : ℚ)
  let r : ℤ :=
    if frac < 1/2 then fl
    else if 1/2 < frac then fl + 1
    else if fl % 2 = 0 then fl else fl + 1
  (r : ℚ) / m

/-- The degree-4 polynomial of the Abramowitz–Stegun approximation used by
`normal_cdf` in `real-analysis.py` line 194. -/
def polyAS (t : ℚ) : ℚ :=
  0.3193815 + t * (-0.3565638 + t * (1.781478 + t * (-1.821256 + t * 1.330274)))

/-- Embedding of `normal_cdf` from `real-analysis.py` lines 190–195, with `math.exp`
abstracted as `ex`.  The division `1 / (1 + 0.2316419 * |x|)` cannot raise
(its divisor is at least 1), so it is modelled as plain division. -/
def normal_cdf (ex : ℚ → ℚ) (x : ℚ) : ℚ :=
  let t := 1 / (1 + 0.2316419 * |x|)
  let d := 0.3989423 * ex (-x * x / 2)
  let p := d * t * polyAS t
  if x > 0 then 1 - p else p

/-- The inner `percentile` closure of `analyze.py` lines 43–48 (interpolated
variant), acting on the already-sorted sample list.  `int(idx)` truncates
toward zero, which agrees with `floor` on the non-negative `idx` arising
for `p ≥ 0`. -/
def percentile_an (sorted_vals : List ℚ) (p : ℚ) : Except Err ℚ := do
  let n := sorted_vals.length
  let idx : ℚ := (p / 100) * ((n : ℚ) - 1)
  let lower : ℤ := pyInt idx
  let upper : ℤ := min (lower + 1) ((n : ℤ) - 1)
  let weight : ℚ := idx - (lower : ℚ)
  let lv ← idxE sorted_vals lower.toNat
  let uv ← idxE sorted_vals upper.toNat
  return lv * (1 - weight) + uv * weight

/-- The inner `percentile` closure of `real-analysis.py` lines 62–64
(inclusive-rank variant), acting on the already-sorted sample list:
`sorted_values[max(0, min(ceil(p/100*n) - 1, n - 1))]`. -/
def percentile_ra (sorted_values : List ℚ) (p : ℚ) : Except Err ℚ := do
  let n := sorted_values.length
  let idx : ℤ := ⌈(p / 100) * (n : ℚ)⌉ - 1
  idxE sorted_values (max 0 (min idx ((n : ℤ) - 1))).toNat

/-- Modelled from the spec (§4.1): the linear-interpolation percentile
estimate in the spec's own words — with the samples sorted ascending, rank
`idx = (p/100)·(n-1)`, value at `floor(idx)` weighted by `1 - frac` plus
value at the `ceil` neighbour clamped to `n-1` weighted by the fractional
part `frac`.  Stated on the sorted list as a total function; the claims
restrict to non-empty input and `p ∈ [0,100]`, where all indices are in
range. -/
def percentileInterpSpec (s : List ℚ) (p : ℚ) : ℚ :=
  let n := s.length
  let idx : ℚ := (p / 100) * ((n : ℚ) - 1)
  let lo : ℕ := (⌊idx⌋).toNat
  let hi : ℕ := min (⌈idx⌉).toNat (n - 1)
  let frac : ℚ := idx - (⌊idx⌋ : ℚ)
  s.getD lo 0 * (1 - frac) + s.getD hi 0 * frac

/-- The statistics record of `analyze.py`'s `calculate_statistics`
(lines 59–75), field for field. -/
structure StatsAn where
  n : ℕ
  mean : ℚ
  sd : ℚ
  min : ℚ
  max : ℚ
  p25 : ℚ
  p50 : ℚ
  p75 : ℚ
  p90 : ℚ
  p95 : ℚ
  p99 : ℚ
  iqr : ℚ
  cv : ℚ
  ci95_lower : ℚ
  ci95_upper : ℚ
deriving DecidableEq, Repr

/-- Embedding of `calculate_statistics` from `analyze.py` lines 27–75, with `math.sqrt`
abstracted as `sq`.  The early return `{}` on empty input (line 29–30) is
an *empty dict* — a record with no fields at all — modelled as `none`;
a populated record is `some r`. -/
def calculate_statistics_an (sq : ℚ → ℚ) (values : List ℚ) :
    Except Err (Option StatsAn) :=
  if values = [] then .ok none else do
    let sorted_vals := List.insertionSort (· ≤ ·) values
    let n := values.length
    let mean ← divE values.sum (n : ℚ)
    let variance ← divE ((values.map (fun x => (x - mean) ^ 2)).sum) ((n : ℚ) - 1)
    let sd := sq variance
    let p25 ← percentile_an sorted_vals 25
    let p50 ← percentile_an sorted_vals 50
    let p75 ← percentile_an sorted_vals 75
    let se ← divE sd (sq (n : ℚ))
    let ci_lower := mean - 1.96 * se
    let ci_upper := mean + 1.96 * se
    let mn ← idxE sorted_vals 0
    let mx ← idxE sorted_vals (n - 1)
    let p90 ← percentile_an sorted_vals 90
    let p95 ← percentile_an sorted_vals 95
    let p99 ← percentile_an sorted_vals 99
    let cv ← divE sd mean
    return some
      { n := n
        mean := pyRound mean 2
        sd := pyRound sd 2
        min := pyRound mn 2
        max := pyRound mx 2
        p25 := pyRound p25 2
        p50 := pyRound p50 2
        p75 := pyRound p75 2
        p90 := pyRound p90 2
        p95 := pyRound p95 2
        p99 := pyRound p99 2
        iqr := pyRound (p75 - p25) 2
        cv := pyRound (cv * 100) 1
        ci95_lower := pyRound ci_lower 2
        ci95_upper := pyRound ci_upper 2 }

/-- The statistics record of `real-analysis.py`'s `calculate_statistics`
(lines 71–81), field for field. -/
structure StatsRa where
  mean : ℚ
  sd : ℚ
  min : ℚ
  max : ℚ
  p50 : ℚ
  p95 : ℚ
  p99 : ℚ
  ci95 : ℚ × ℚ
  n : ℕ
deriving DecidableEq, Repr

/-- Embedding of `calculate_statistics` from `real-analysis.py` lines 40–81, with
`math.sqrt` abstracted as `sq`.  Empty input returns the all-zero record
(lines 42–46). -/
def calculate_statistics_ra (sq : ℚ → ℚ) (values : List ℚ) :
    Except Err StatsRa :=
  if values = [] then .ok ⟨0, 0, 0, 0, 0, 0, 0, (0, 0), 0⟩ else do
    let n := values.length
    let sorted_values := List.insertionSort (· ≤ ·) values
    let mean ← divE values.sum (n : ℚ)
    let sd ←
      if n > 1 then do
        let variance ← divE ((values.map (fun x => (x - mean) ^ 2)).sum) ((n : ℚ) - 1)
        pure (sq variance)
      else pure 0
    let mn ← idxE sorted_values 0
    let mx ← idxE sorted_values (n - 1)
    let p50 ← percentile_ra sorted_values 50
    let p95 ← percentile_ra sorted_values 95
    let p99 ← percentile_ra sorted_values 99
    let se ← if n > 0 then divE sd (sq (n : ℚ)) else pure 0
    let ci95 := (mean - 1.96 * se, mean + 1.96 * se)
    return ⟨mean, sd, mn, mx, p50, p95, p99, ci95, n⟩

/-- The result record of `analyze.py`'s `welch_t_test` (line 98). -/
structure WelchAnRes where
  t : ℚ
  df : ℚ
  p_value : ℚ
deriving DecidableEq, Repr

/-- Embedding of `welch_t_test` from `analyze.py` lines 77–98, with `math.sqrt`
abstracted as `sq`.  The p-value is the hard-coded threshold
approximation of line 96: `0.001 if abs(t) > 3.5 else 0.05`.
The `df` expression of lines 90–92 recomputes `var1/n1` and `var2/n2`;
those recomputed divisions are the already-obtained `a` and `b`. -/
def welch_t_test_an (sq : ℚ → ℚ) (group1 group2 : List ℚ) :
    Except Err WelchAnRes := do
  let n1 : ℚ := group1.length
  let n2 : ℚ := group2.length
  let mean1 ← divE group1.sum n1
  let mean2 ← divE group2.sum n2
  let var1 ← divE ((group1.map (fun x => (x - mean1) ^ 2)).sum) (n1 - 1)
  let var2 ← divE ((group2.map (fun x => (x - mean2) ^ 2)).sum) (n2 - 1)
  let a ← divE var1 n1
  let b ← divE var2 n2
  let se := sq (a + b)
  let t ← divE (mean1 - mean2) se
  let c ← divE (a ^ 2) (n1 - 1)
  let d ← divE (b ^ 2) (n2 - 1)
  let df ← divE ((a + b) ^ 2) (c + d)
  let p_value : ℚ := if |t| > 3.5 then 0.001 else 0.05
  return ⟨pyRound t 2, pyRound df 2, p_value⟩

/-- The result record of `real-analysis.py`'s `welch_t_test` (line 117). -/
structure WelchRaRes where
  t : ℚ
  p : ℚ
  df : ℚ
deriving DecidableEq, Repr

/-- Embedding of `welch_t_test` from `real-analysis.py` lines 96–117 (the pure-Python
fallback), with `math.sqrt` abstracted as `sq` and `math.exp` as `ex`.
Line 104's degenerate guard (`se == 0`) returns `t=0, p=1.0` before any
further computation.  Lines 110–111 recompute `sd**2/n1` and `sd**2/n2`;
those recomputed divisions are the already-obtained `a` and `b`. -/
def welch_t_test_ra (sq ex : ℚ → ℚ) (group1 group2 : List ℚ) :
    Except Err WelchRaRes := do
  let stats1 ← calculate_statistics_ra sq group1
  let stats2 ← calculate_statistics_ra sq group2
  let n1 : ℚ := group1.length
  let n2 : ℚ := group2.length
  let a ← divE (stats1.sd ^ 2) n1
  let b ← divE (stats2.sd ^ 2) n2
  let se := sq (a + b)
  if se = 0 then return ⟨0, 1, n1 + n2 - 2⟩
  let t ← divE (stats1.mean - stats2.mean) se
  let num := (a + b) ^ 2
  let c ← divE (a ^ 2) (n1 - 1)
  let d ← divE (b ^ 2) (n2 - 1)
  let denom := c + d
  let df := if denom > 0 then num / denom else n1 + n2 - 2
  let p := 2 * (1 - normal_cdf ex |t|)
  return ⟨t, p, df⟩

/-- Tie-averaged (mid-)rank of the value `v` in the sorted combined list
`s`, as built by `mann_whitney_u` in `real-analysis.py` lines 133–141:
1-based positions of all occurrences of `v`, averaged.  For a value that
occurs in `s` the divisor is its positive occurrence count, so the
division cannot raise. -/
def avgRank (s : List ℚ) (v : ℚ) : ℚ :=
  let ps := (Finset.range s.length).filter (fun i => s.get? i = some v)
  (ps.sum fun i => (i : ℚ) + 1) / (ps.card : ℚ)

/-- The combined, ascending-sorted sample list of `mann_whitney_u`
(`real-analysis.py` lines 130–131); the ranks depend only on the values,
so sorting the value list models sorting the `(value, group)` pairs by
value. -/
def mwCombined (group1 group2 : List ℚ) : List ℚ :=
  List.insertionSort (· ≤ ·) (group1 ++ group2)

/-- The rank sum `R1` of `mann_whitney_u` (`real-analysis.py` line 144): the sum of the
tie-averaged ranks of group 1's values. -/
def mwR1 (group1 group2 : List ℚ) : ℚ :=
  (group1.map (avgRank (mwCombined group1 group2))).sum

/-- The statistic `U1` of `mann_whitney_u` (`real-analysis.py` line 147):
`R1 - n1*(n1+1)/2`. -/
def mwU1 (group1 group2 : List ℚ) : ℚ :=
  mwR1 group1 group2 - (group1.length : ℚ) * ((group1.length : ℚ) + 1) / 2

/-- The result record of `real-analysis.py`'s `mann_whitney_u` (line 157). -/
structure MWRes where
  U : ℚ
  p : ℚ
  z : ℚ
deriving DecidableEq, Repr

/-- Embedding of `mann_whitney_u` from `real-analysis.py` lines 120–157 (the pure-Python
fallback), with `math.sqrt` abstracted as `sq` and `math.exp` as `ex`.
All of its divisions have structurally non-zero divisors (rank counts of
present values, and the literals 2 and 12), and `z`'s division is guarded
by `std_U > 0`, so the function is total. -/
def mann_whitney_u (sq ex : ℚ → ℚ) (group1 group2 : List ℚ) : MWRes :=
  let n1 : ℚ := group1.length
  let n2 : ℚ := group2.length
  let U1 := mwU1 group1 group2
  let U2 := n1 * n2 - U1
  let U := min U1 U2
  let mean_U := n1 * n2 / 2
  let std_U := sq (n1 * n2 * (n1 + n2 + 1) / 12)
  let z := if std_U > 0 then (U - mean_U) / std_U else 0
  let p := 2 * (1 - normal_cdf ex |z|)
  ⟨U, p, z⟩

/-- Embedding of `cohens_d` from `analyze.py` lines 100–111, with `math.sqrt` abstracted
as `sq`.  It returns only the rounded `d` (no interpretation), and its
final division by `pooled_sd` is unguarded. -/
def cohens_d_an (sq : ℚ → ℚ) (group1 group2 : List ℚ) : Except Err ℚ := do
  let n1 : ℚ := group1.length
  let n2 : ℚ := group2.length
  let mean1 ← divE group1.sum n1
  let mean2 ← divE group2.sum n2
  let var1 ← divE ((group1.map (fun x => (x - mean1) ^ 2)).sum) (n1 - 1)
  let var2 ← divE ((group2.map (fun x => (x - mean2) ^ 2)).sum) (n2 - 1)
  let pooled_var ← divE ((n1 - 1) * var1 + (n2 - 1) * var2) (n1 + n2 - 2)
  let pooled_sd := sq pooled_var
  let d ← divE (mean1 - mean2) pooled_sd
  return pyRound d 2

/-- The result record of `real-analysis.py`'s `cohens_d` (line 187). -/
structure CohenRes where
  d : ℚ
  interpretation : String
deriving DecidableEq, Repr

/-- Embedding of `cohens_d` from `real-analysis.py` lines 160–187, with `math.sqrt`
abstracted as `sq`: the `pooled_sd == 0` guard returns
`{d: 0, interpretation: "undefined"}`, otherwise the strict-`<`
threshold chain of lines 178–185 classifies `|d|`. -/
def cohens_d_ra (sq : ℚ → ℚ) (group1 group2 : List ℚ) : Except Err CohenRes := do
  let stats1 ← calculate_statistics_ra sq group1
  let stats2 ← calculate_statistics_ra sq group2
  let n1 : ℚ := group1.length
  let n2 : ℚ := group2.length
  let pooled_var ← divE ((n1 - 1) * stats1.sd ^ 2 + (n2 - 1) * stats2.sd ^ 2) (n1 + n2 - 2)
  let pooled_sd := sq pooled_var
  if pooled_sd = 0 then return ⟨0, "undefined"⟩
  let d ← divE (stats1.mean - stats2.mean) pooled_sd
  let abs_d := |d|
  let interpretation :=
    if abs_d < 0.2 then "negligible"
    else if abs_d < 0.5 then "small"
    else if abs_d < 0.8 then "medium"
    else "large"
  return ⟨d, interpretation⟩

theorem bind_ok {α β : Type} (a : α) (f : α → Except Err β) :
    (Except.ok a : Except Err α) >>= f = f a := rfl

theorem bind_error {α β : Type} (e : Err) (f : α → Except Err β) :
    (Except.error e : Except Err α) >>= f = .error e := rfl

theorem pure_eq_ok {α : Type} (a : α) : (pure a : Except Err α) = .ok a := rfl

theorem floor_eval {q : ℚ} {z : ℤ} (h1 : (z : ℚ) ≤ q) (h2 : q < (z : ℚ) + 1) : ⌊q⌋ = z := by
  rw [Int.floor_eq_iff]
  exact ⟨h1, h2⟩

theorem ceil_eval {q : ℚ} {z : ℤ} (h1 : (z : ℚ) - 1 < q) (h2 : q ≤ (z : ℚ)) : ⌈q⌉ = z := by
  rw [Int.ceil_eq_iff]
  exact ⟨h1, h2⟩

theorem idxE_eval {l : List ℚ} {i : ℕ} {v : ℚ} (h : l.get? i = some v) :
    idxE l i = .ok v := by
  simp only [idxE, h]

/-- Helper: evaluate the inclusive-rank percentile at a concrete list once
the clamped index has been computed. -/
theorem percentile_ra_eval {s : List ℚ} {p : ℚ} (k : ℕ) (v : ℚ)
    (hk : (max 0 (min (⌈(p / 100) * (s.length : ℚ)⌉ - 1) ((s.length : ℤ) - 1))).toNat = k)
    (h : s.get? k = some v) :
    percentile_ra s p = .ok v := by
  simp only [percentile_ra, hk, idxE, h]

/-- Helper: the `n = 1` statistics record that `real-analysis.py` produces
for the singleton group `[5]` under the identity square root. -/
theorem calc_ra_eval_single5 :
    calculate_statistics_ra (fun q => q) [5] =
      .ok ⟨5, 0, 5, 5, 5, 5, 5, (5, 5), 1⟩ := by
  have hc1 : (⌈(1/2 : ℚ)⌉ : ℤ) = 1 := ceil_eval (by norm_num) (by norm_num)
  have hc2 : (⌈(19/20 : ℚ)⌉ : ℤ) = 1 := ceil_eval (by norm_num) (by norm_num)
  have hc3 : (⌈(99/100 : ℚ)⌉ : ℤ) = 1 := ceil_eval (by norm_num) (by norm_num)
  have h50 : percentile_ra [5] 50 = .ok 5 := percentile_ra_eval 0 5 (by norm_num [hc1]) rfl
  have h95 : percentile_ra [5] 95 = .ok 5 := percentile_ra_eval 0 5 (by norm_num [hc2]) rfl
  have h99 : percentile_ra [5] 99 = .ok 5 := percentile_ra_eval 0 5 (by norm_num [hc3]) rfl
  have hmn : idxE [5] 0 = .ok 5 := idxE_eval rfl
  simp only [calculate_statistics_ra, divE, List.insertionSort, List.orderedInsert,
    bind_ok, bind_error]
  norm_num [bind_ok, bind_error, pure_eq_ok, List.cons_ne_nil, h50, h95, h99, hmn]

/-- Helper: the statistics record that `real-analysis.py` produces for
`[3, 4]` under the identity square root. -/
theorem calc_ra_eval_34 :
    calculate_statistics_ra (fun q => q) [3, 4] =
      .ok ⟨7/2, 1/2, 3, 4, 3, 4, 4, (301/100, 399/100), 2⟩ := by
  have hc1 : (⌈(1 : ℚ)⌉ : ℤ) = 1 := ceil_eval (by norm_num) (by norm_num)
  have hc2 : (⌈(19/10 : ℚ)⌉ : ℤ) = 2 := ceil_eval (by norm_num) (by norm_num)
  have hc3 : (⌈(99/50 : ℚ)⌉ : ℤ) = 2 := ceil_eval (by norm_num) (by norm_num)
  have h50 : percentile_ra [3, 4] 50 = .ok 3 := percentile_ra_eval 0 3 (by norm_num [hc1]) rfl
  have h95 : percentile_ra [3, 4] 95 = .ok 4 := percentile_ra_eval 1 4 (by norm_num [hc2]) rfl
  have h99 : percentile_ra [3, 4] 99 = .ok 4 := percentile_ra_eval 1 4 (by norm_num [hc3]) rfl
  have hmn : idxE [3, 4] 0 = .ok 3 := idxE_eval rfl
  have hmx : idxE [3, 4] 1 = .ok 4 := idxE_eval rfl
  simp only [calculate_statistics_ra, divE, List.insertionSort, List.orderedInsert,
    bind_ok, bind_error]
  norm_num [bind_ok, bind_error, pure_eq_ok, List.cons_ne_nil, h50, h95, h99, hmn, hmx]

/-- Helper: the statistics record that `real-analysis.py` produces for
`[3, 3]` under the identity square root. -/
theorem calc_ra_eval_33 :
    calculate_statistics_ra (fun q => q) [3, 3] =
      .ok ⟨3, 0, 3, 3, 3, 3, 3, (3, 3), 2⟩ := by
  have hc1 : (⌈(1 : ℚ)⌉ : ℤ) = 1 := ceil_eval (by norm_num) (by norm_num)
  have hc2 : (⌈(19/10 : ℚ)⌉ : ℤ) = 2 := ceil_eval (by norm_num) (by norm_num)
  have hc3 : (⌈(99/50 : ℚ)⌉ : ℤ) = 2 := ceil_eval (by norm_num) (by norm_num)
  have h50 : percentile_ra [3, 3] 50 = .ok 3 := percentile_ra_eval 0 3 (by norm_num [hc1]) rfl
  have h95 : percentile_ra [3, 3] 95 = .ok 3 := percentile_ra_eval 1 3 (by norm_num [hc2]) rfl
  have h99 : percentile_ra [3, 3] 99 = .ok 3 := percentile_ra_eval 1 3 (by norm_num [hc3]) rfl
  have hmn : idxE [3, 3] 0 = .ok 3 := idxE_eval rfl
  have hmx : idxE [3, 3] 1 = .ok 3 := idxE_eval rfl
  simp only [calculate_statistics_ra, divE, List.insertionSort, List.orderedInsert,
    bind_ok, bind_error]
  norm_num [bind_ok, bind_error, pure_eq_ok, List.cons_ne_nil, h50, h95, h99, hmn, hmx]

/-- Helper: the statistics record that `real-analysis.py` produces for
the constant group `[7, 7, 7]` under the identity square root. -/
theorem calc_ra_eval_777 :
    calculate_statistics_ra (fun q => q) [7, 7, 7] =
      .ok ⟨7, 0, 7, 7, 7, 7, 7, (7, 7), 3⟩ := by
  have hc1 : (⌈(3/2 : ℚ)⌉ : ℤ) = 2 := ceil_eval (by norm_num) (by norm_num)
  have hc2 : (⌈(57/20 : ℚ)⌉ : ℤ) = 3 := ceil_eval (by norm_num) (by norm_num)
  have hc3 : (⌈(297/100 : ℚ)⌉ : ℤ) = 3 := ceil_eval (by norm_num) (by norm_num)
  have h50 : percentile_ra [7, 7, 7] 50 = .ok 7 := percentile_ra_eval 1 7 (by norm_num [hc1]) rfl
  have h95 : percentile_ra [7, 7, 7] 95 = .ok 7 := percentile_ra_eval 2 7 (by norm_num [hc2]; decide) rfl
  have h99 : percentile_ra [7, 7, 7] 99 = .ok 7 := percentile_ra_eval 2 7 (by norm_num [hc3]; decide) rfl
  have hmn : idxE [7, 7, 7] 0 = .ok 7 := idxE_eval rfl
  have hmx : idxE [7, 7, 7] 2 = .ok 7 := idxE_eval rfl
  simp only [calculate_statistics_ra, divE, List.insertionSort, List.orderedInsert,
    bind_ok, bind_error]
  norm_num [bind_ok, bind_error, pure_eq_ok, List.cons_ne_nil, h50, h95, h99, hmn, hmx]

/-- C2: a group of fewer than 2 samples does not make either `welch_t_test`
fail with the spec's InsufficientSampleSize condition.  `analyze.py`'s
version raises `ZeroDivisionError` (variance divides by `n1 - 1 = 0`);
`real-analysis.py`'s fallback raises `ZeroDivisionError` later in the
Welch–Satterthwaite denominator on `welchTTest([5.0], [3.0, 4.0])`; and
when the opposite group is constant (`[3.0, 3.0]`), it even silently
returns `t=0, p=1.0` for a size-1 group instead of failing at all. -/
theorem welch_insufficient_size_behaviour :
    welch_t_test_an (fun q => q) [5] [3, 4] = .error .divisionByZero ∧
    welch_t_test_ra (fun q => q) (fun _ => 1) [5] [3, 4] = .error .divisionByZero ∧
    welch_t_test_ra (fun q => q) (fun _ => 1) [5] [3, 3] = .ok ⟨0, 1, 1⟩ := by
  refine ⟨?_, ?_, ?_⟩
  · simp only [welch_t_test_an, divE, bind_ok, bind_error]
    norm_num [bind_ok, bind_error, pure_eq_ok, Int.toNat_ofNat]
  · rw [welch_t_test_ra, calc_ra_eval_single5, calc_ra_eval_34]
    simp only [divE, bind_ok, bind_error]
    norm_num [bind_ok, bind_error, pure_eq_ok, Int.toNat_ofNat]
  · rw [welch_t_test_ra, calc_ra_eval_single5, calc_ra_eval_33]
    simp only [divE, bind_ok, bind_error]
    norm_num [bind_ok, bind_error, pure_eq_ok, Int.toNat_ofNat]

/-- C3: on the degenerate input `welchTTest([7,7,7],[7,7,7])` (pooled
standard error 0), `analyze.py`'s `welch_t_test` raises
`ZeroDivisionError` at `t = (mean1 - mean2) / se` instead of returning
`t=0, p=1.0`; only `real-analysis.py`'s fallback has the `se == 0` guard
and returns `t=0, p=1.0, df=4` as the spec demands. -/
theorem welch_degenerate_behaviour :
    welch_t_test_an (fun q => q) [7, 7, 7] [7, 7, 7] = .error .divisionByZero ∧
    welch_t_test_ra (fun q => q) (fun _ => 1) [7, 7, 7] [7, 7, 7] = .ok ⟨0, 1, 4⟩ := by
  constructor
  · simp only [welch_t_test_an, divE, bind_ok, bind_error]
    norm_num [bind_ok, bind_error, pure_eq_ok, Int.toNat_ofNat]
  · rw [welch_t_test_ra, calc_ra_eval_777]
    simp only [divE, bind_ok, bind_error]
    norm_num [bind_ok, bind_error, pure_eq_ok, Int.toNat_ofNat]

/-- C4 (counterexample): on empty input, `analyze.py`'s
`calculate_statistics` returns the *empty dict* `{}` (modelled as `none`):
a record carrying no `n` field and no zero-valued numeric fields at all,
contradicting the claim that the returned record has `n = 0` and every
numeric field set to a defined zero/sentinel value. -/
theorem calc_an_empty_returns_empty_dict :
    calculate_statistics_an (fun q => q) [] = .ok none := by
  simp [calculate_statistics_an]

/-- C4 (amended): on empty input neither implementation fails;
`real-analysis.py`'s `calculate_statistics` returns the fully populated
all-zero record with `n = 0`, while `analyze.py`'s returns the empty
record `{}` with no fields. -/
theorem calc_empty_behaviour (sq : ℚ → ℚ) :
    calculate_statistics_ra sq [] = .ok ⟨0, 0, 0, 0, 0, 0, 0, (0, 0), 0⟩ ∧
    calculate_statistics_an sq [] = .ok none := by
  exact ⟨by simp [calculate_statistics_ra], by simp [calculate_statistics_an]⟩

/-- C1 (counterexample): for the groups `[0,1]` and `[0,1]` (2 samples
each, pooled standard error `sqrt(1/2) ≠ 0`), `analyze.py`'s
`welch_t_test` returns its hard-coded threshold p-value `0.05`, which is
not `2 * (1 - normalCdf(|t|))`: here `t = 0` and the formula value is
`2 * (1 - normalCdf(0)) ≈ 1`.  (The square root is instantiated with the
identity, which agrees with the real square root at the one point where
its value matters for the claim: `se = sqrt(1/2) ≠ 0` either way, and `t = 0/se = 0`.) -/
theorem welch_an_p_not_cdf_formula :
    welch_t_test_an (fun q => q) [0, 1] [0, 1] = .ok ⟨0, 2, 1/20⟩ ∧
    2 * (1 - normal_cdf (fun _ => 1) |(0 : ℚ)|) ≠ 1/20 := by
  constructor
  · have hf : (⌊(200 : ℚ)⌋ : ℤ) = 200 := floor_eval (by norm_num) (by norm_num)
    simp only [welch_t_test_an, divE, pyRound, bind_ok, bind_error]
    norm_num [bind_ok, bind_error, pure_eq_ok, hf]
  · norm_num [normal_cdf, polyAS]

/-- C7 (counterexample): for `[7,7]` vs `[7,7]` (so `n1 + n2 = 4 > 2` and
pooled SD `0`), `analyze.py`'s `cohens_d` does not return
`d = 0, interpretation = "undefined"`: it raises `ZeroDivisionError` on
the unguarded division by the zero pooled SD (and it computes no
interpretation label at all). -/
theorem cohens_d_an_zero_pooled_raises :
    cohens_d_an (fun q => q) [7, 7] [7, 7] = .error .divisionByZero := by
  simp only [cohens_d_an, divE, bind_ok, bind_error]
  norm_num [bind_ok, bind_error, pure_eq_ok]

/-- C8: for the input `[1.0, -1.0]` (mean `0`), `analyze.py`'s
`calculate_statistics` performs the *unguarded* division `(sd / mean)` in
its `cv` entry and raises `ZeroDivisionError`, losing the whole record;
there is no guard and no non-numeric sentinel.  The hypothesis
`sq 2 ≠ 0` is the only property of the square root used
(`math.sqrt(2) ≈ 1.414 ≠ 0`), so the earlier `se = sd / sqrt(n)` division
succeeds and execution genuinely reaches the `cv` division. -/
theorem calc_an_cv_unguarded_division (sq : ℚ → ℚ) (hsq : sq 2 ≠ 0) :
    calculate_statistics_an sq [1, -1] = .error .divisionByZero := by
  have hf1 : (⌊(1/4 : ℚ)⌋ : ℤ) = 0 := floor_eval (by norm_num) (by norm_num)
  have hf2 : (⌊(1/2 : ℚ)⌋ : ℤ) = 0 := floor_eval (by norm_num) (by norm_num)
  have hf3 : (⌊(3/4 : ℚ)⌋ : ℤ) = 0 := floor_eval (by norm_num) (by norm_num)
  have hf4 : (⌊(9/10 : ℚ)⌋ : ℤ) = 0 := floor_eval (by norm_num) (by norm_num)
  have hf5 : (⌊(19/20 : ℚ)⌋ : ℤ) = 0 := floor_eval (by norm_num) (by norm_num)
  have hf6 : (⌊(99/100 : ℚ)⌋ : ℤ) = 0 := floor_eval (by norm_num) (by norm_num)
  simp only [calculate_statistics_an, percentile_an, pyInt, divE, idxE,
    List.insertionSort, List.orderedInsert, bind_ok, bind_error]
  norm_num [bind_ok, bind_error, pure_eq_ok, List.cons_ne_nil, hsq,
    hf1, hf2, hf3, hf4, hf5, hf6]

/-- C8 (witness): the failing division is reached for a concrete square
root satisfying the hypothesis. -/
theorem calc_an_cv_unguarded_division_witness :
    calculate_statistics_an (fun q => q) [1, -1] = .error .divisionByZero :=
  calc_an_cv_unguarded_division (fun q => q) (by norm_num)

/-- C1 (amended): whenever `real-analysis.py`'s fallback `welch_t_test`
returns a result on groups of at least 2 samples each whose pooled
standard error is non-zero, the returned two-sided p-value is exactly
`2 * (1 - normalCdf(|t|))` computed with the engine's `normal_cdf`.
The hypotheses `h1`/`h2` record the per-group statistics the function
itself computed, and `hse` states that the pooled standard error
`sqrt(sd1²/n1 + sd2²/n2)` is non-zero. -/
theorem welch_ra_p_value_formula (sq ex : ℚ → ℚ) (g1 g2 : List ℚ)
    (s1 s2 : StatsRa)
    (h1 : calculate_statistics_ra sq g1 = .ok s1)
    (h2 : calculate_statistics_ra sq g2 = .ok s2)
    (hn1 : 2 ≤ g1.length) (hn2 : 2 ≤ g2.length)
    (hse : sq (s1.sd ^ 2 / (g1.length : ℚ) + s2.sd ^ 2 / (g2.length : ℚ)) ≠ 0)
    (r : WelchRaRes) (hr : welch_t_test_ra sq ex g1 g2 = .ok r) :
    r.p = 2 * (1 - normal_cdf ex |r.t|) := by
  have hq1 : ((g1.length : ℚ)) ≠ 0 := by
    have : (2 : ℚ) ≤ (g1.length : ℚ) := by exact_mod_cast hn1
    linarith
  have hq2 : ((g2.length : ℚ)) ≠ 0 := by
    have : (2 : ℚ) ≤ (g2.length : ℚ) := by exact_mod_cast hn2
    linarith
  have hm1 : ((g1.length : ℚ)) - 1 ≠ 0 := by
    have : (2 : ℚ) ≤ (g1.length : ℚ) := by exact_mod_cast hn1
    linarith
  have hm2 : ((g2.length : ℚ)) - 1 ≠ 0 := by
    have : (2 : ℚ) ≤ (g2.length : ℚ) := by exact_mod_cast hn2
    linarith
  simp only [welch_t_test_ra, h1, h2, divE, bind_ok, bind_error, pure_eq_ok, hq1, hq2, hm1, hm2,
    if_false, ite_false, if_neg hse, if_neg hq1, if_neg hq2, if_neg hm1, if_neg hm2,
    Except.ok.injEq] at hr
  subst hr
  rfl

/-- Helper: the statistics record that `real-analysis.py` produces for
`[0, 2]` under the identity square root. -/
theorem calc_ra_eval_02 :
    calculate_statistics_ra (fun q => q) [0, 2] =
      .ok ⟨1, 2, 0, 2, 0, 2, 2, (-(24/25), 74/25), 2⟩ := by
  have hc1 : (⌈(1 : ℚ)⌉ : ℤ) = 1 := ceil_eval (by norm_num) (by norm_num)
  have hc2 : (⌈(19/10 : ℚ)⌉ : ℤ) = 2 := ceil_eval (by norm_num) (by norm_num)
  have hc3 : (⌈(99/50 : ℚ)⌉ : ℤ) = 2 := ceil_eval (by norm_num) (by norm_num)
  have h50 : percentile_ra [0, 2] 50 = .ok 0 := percentile_ra_eval 0 0 (by norm_num [hc1]) rfl
  have h95 : percentile_ra [0, 2] 95 = .ok 2 := percentile_ra_eval 1 2 (by norm_num [hc2]) rfl
  have h99 : percentile_ra [0, 2] 99 = .ok 2 := percentile_ra_eval 1 2 (by norm_num [hc3]) rfl
  have hmn : idxE [0, 2] 0 = .ok 0 := idxE_eval rfl
  have hmx : idxE [0, 2] 1 = .ok 2 := idxE_eval rfl
  simp only [calculate_statistics_ra, divE, List.insertionSort, List.orderedInsert,
    bind_ok, bind_error]
  norm_num [bind_ok, bind_error, pure_eq_ok, List.cons_ne_nil, h50, h95, h99, hmn, hmx]

/-- C1 (witness): the p-value formula theorem applied to the concrete
comparison of `[0, 2]` with `[0, 2]` (identity square root, constant-one
exponential), whose result record is `t = 0, p = 2·(1 − normalCdf 0), df = 2`. -/
theorem welch_ra_p_value_formula_witness :
    (⟨0, 2 * (1 - normal_cdf (fun _ => 1) 0), 2⟩ : WelchRaRes).p =
      2 * (1 - normal_cdf (fun _ => 1)
        |(⟨0, 2 * (1 - normal_cdf (fun _ => 1) 0), 2⟩ : WelchRaRes).t|) := by
  refine welch_ra_p_value_formula (fun q => q) (fun _ => 1) [0, 2] [0, 2] _ _
    calc_ra_eval_02 calc_ra_eval_02 (by norm_num) (by norm_num) (by norm_num) _ ?_
  rw [welch_t_test_ra, calc_ra_eval_02]
  simp only [divE, bind_ok, bind_error, pure_eq_ok]
  norm_num [bind_ok, bind_error, pure_eq_ok]

theorem pyInt_eq_floor {q : ℚ} (h : 0 ≤ q) : pyInt q = ⌊q⌋ := if_pos h

theorem floor_natCast_sub_one (n : ℕ) : ⌊((n : ℚ) - 1)⌋ = (n : ℤ) - 1 := by
  rw [show ((n : ℚ) - 1) = (((n : ℤ) - 1 : ℤ) : ℚ) by push_cast; ring, Int.floor_intCast]

/-- Helper: bounds for the two indices of the interpolated percentile of
`analyze.py`: both `int(idx)` and `min(int(idx) + 1, n - 1)` land strictly
below `n` whenever the list is non-empty and `0 ≤ p ≤ 100`. -/
theorem percentile_an_bounds (s : List ℚ) (p : ℚ)
    (hs : s ≠ []) (h0 : 0 ≤ p) (h1 : p ≤ 100) :
    (pyInt ((p / 100) * ((s.length : ℚ) - 1))).toNat < s.length ∧
    (min (pyInt ((p / 100) * ((s.length : ℚ) - 1)) + 1) ((s.length : ℤ) - 1)).toNat < s.length := by
  have hn : 1 ≤ s.length := List.length_pos.mpr hs
  have hnq : (1 : ℚ) ≤ (s.length : ℚ) := by exact_mod_cast hn
  have hidx0 : 0 ≤ (p / 100) * ((s.length : ℚ) - 1) := by
    have := div_nonneg h0 (by norm_num : (0:ℚ) ≤ 100)
    nlinarith
  have hidx1 : (p / 100) * ((s.length : ℚ) - 1) ≤ (s.length : ℚ) - 1 := by
    have hp1 : p / 100 ≤ 1 := by linarith [div_le_one_of_le₀ h1 (by norm_num : (0:ℚ) ≤ 100)]
    nlinarith
  rw [pyInt_eq_floor hidx0]
  have hfl0 : 0 ≤ ⌊(p / 100) * ((s.length : ℚ) - 1)⌋ := Int.floor_nonneg.mpr hidx0
  have hfl1 : ⌊(p / 100) * ((s.length : ℚ) - 1)⌋ ≤ (s.length : ℤ) - 1 := by
    have := Int.floor_le_floor hidx1
    rwa [floor_natCast_sub_one] at this
  constructor <;> omega

/-- Helper: the clamped index of the inclusive-rank percentile of
`real-analysis.py` lands strictly below `n` whenever the list is
non-empty. -/
theorem percentile_ra_bounds (s : List ℚ) (p : ℚ) (hs : s ≠ []) :
    (max 0 (min (⌈(p / 100) * (s.length : ℚ)⌉ - 1) ((s.length : ℤ) - 1))).toNat < s.length := by
  have hn : 1 ≤ s.length := List.length_pos.mpr hs
  omega

/-- C10: for every non-empty sample list and `p ∈ [0,100]`, both percentile
implementations only access in-bounds positions: the interpolated variant's
clamped indices and the inclusive-rank variant's clamped index are always
in range, so each returns a value and neither can raise `IndexError`. -/
theorem percentile_index_safety (s : List ℚ) (p : ℚ)
    (hs : s ≠ []) (h0 : 0 ≤ p) (h1 : p ≤ 100) :
    (∃ v, percentile_an s p = .ok v) ∧ (∃ v, percentile_ra s p = .ok v) := by
  obtain ⟨hlo, hhi⟩ := percentile_an_bounds s p hs h0 h1
  have hra := percentile_ra_bounds s p hs
  constructor
  · exact ⟨_, by
      simp only [percentile_an, idxE, List.get?_eq_get hlo, List.get?_eq_get hhi, bind_ok,
        pure_eq_ok]
      rfl⟩
  · exact ⟨_, by
      simp only [percentile_ra, idxE, List.get?_eq_get hra]
      rfl⟩

/-- C10 (witness): index safety at the concrete list `[3, 1, 2]` with
`p = 95`. -/
theorem percentile_index_safety_witness :
    (∃ v, percentile_an [3, 1, 2] 95 = .ok v) ∧
    (∃ v, percentile_ra [3, 1, 2] 95 = .ok v) :=
  percentile_index_safety [3, 1, 2] 95 (by simp) (by norm_num) (by norm_num)

theorem getD_eq_get_of_lt (l : List ℚ) (i : ℕ) (h : i < l.length) :
    l.getD i 0 = l.get ⟨i, h⟩ := by
  rw [List.getD_eq_get?, List.get?_eq_get h, Option.getD_some]

/-- C5 (counterexample): on the sorted two-sample list `[0, 1]` with
`p = 50`, `real-analysis.py`'s reported percentile is `0` (inclusive-rank
convention), while the linear-interpolation estimate the claim describes
is `1/2` — so not every reported percentile equals the interpolation
estimate. -/
theorem percentile_ra_not_interpolated :
    percentile_ra [0, 1] 50 = .ok 0 ∧
    percentileInterpSpec [0, 1] 50 = 1/2 ∧ (0 : ℚ) ≠ 1/2 := by
  have hc : (⌈(1 : ℚ)⌉ : ℤ) = 1 := ceil_eval (by norm_num) (by norm_num)
  have hf : (⌊(1/2 : ℚ)⌋ : ℤ) = 0 := floor_eval (by norm_num) (by norm_num)
  have hc2 : (⌈(1/2 : ℚ)⌉ : ℤ) = 1 := ceil_eval (by norm_num) (by norm_num)
  refine ⟨percentile_ra_eval 0 0 (by norm_num [hc]) rfl, ?_, by norm_num⟩
  simp only [percentileInterpSpec]
  norm_num [hf, hc2]

/-- C5 (amended, and the part of the claim that holds): `analyze.py`'s
interpolated percentile agrees exactly with the spec's linear-interpolation
estimate for every non-empty sorted list and every `p ∈ [0, 100]`. -/
theorem percentile_an_matches_interp_spec (s : List ℚ) (p : ℚ)
    (hs : s ≠ []) (h0 : 0 ≤ p) (h1 : p ≤ 100) :
    percentile_an s p = .ok (percentileInterpSpec s p) := by
  obtain ⟨hlo, hhi⟩ := percentile_an_bounds s p hs h0 h1
  have hn : 1 ≤ s.length := List.length_pos.mpr hs
  have hnq : (1 : ℚ) ≤ (s.length : ℚ) := by exact_mod_cast hn
  have hidx0 : 0 ≤ (p / 100) * ((s.length : ℚ) - 1) := by
    have := div_nonneg h0 (by norm_num : (0:ℚ) ≤ 100)
    nlinarith
  have hpy : pyInt ((p / 100) * ((s.length : ℚ) - 1)) =
      ⌊(p / 100) * ((s.length : ℚ) - 1)⌋ := pyInt_eq_floor hidx0
  rw [hpy] at hlo hhi
  have hfl0 : 0 ≤ ⌊(p / 100) * ((s.length : ℚ) - 1)⌋ := Int.floor_nonneg.mpr hidx0
  -- the spec-side indices, rewritten to the code-side ones
  have hspec_lo : (⌊(p / 100) * ((s.length : ℚ) - 1)⌋).toNat < s.length := hlo
  simp only [percentile_an, idxE, hpy, List.get?_eq_get hlo, List.get?_eq_get hhi,
    bind_ok, pure_eq_ok, Except.ok.injEq, percentileInterpSpec]
  rcases eq_or_lt_of_le (Int.floor_le ((p / 100) * ((s.length : ℚ) - 1))) with heq | hlt
  · -- the rank is an integer: both weights are zero and both sides reduce
    -- to the value at the floor index
    have hw : (p / 100) * ((s.length : ℚ) - 1) - (⌊(p / 100) * ((s.length : ℚ) - 1)⌋ : ℚ) = 0 := by
      rw [← heq, Int.floor_intCast, sub_self]
    rw [hw]
    simp only [mul_zero, add_zero, sub_zero, mul_one]
    rw [getD_eq_get_of_lt s _ hlo]
  · -- the rank is not an integer: the ceil neighbour is floor + 1 and the
    -- two upper-index computations agree
    have hne : ⌈(p / 100) * ((s.length : ℚ) - 1)⌉ = ⌊(p / 100) * ((s.length : ℚ) - 1)⌋ + 1 := by
      have h2 := Int.ceil_le_floor_add_one ((p / 100) * ((s.length : ℚ) - 1))
      have h3 : ⌊(p / 100) * ((s.length : ℚ) - 1)⌋ < ⌈(p / 100) * ((s.length : ℚ) - 1)⌉ := by
        by_contra hcon
        push_neg at hcon
        have h4 : (p / 100) * ((s.length : ℚ) - 1) ≤ (⌊(p / 100) * ((s.length : ℚ) - 1)⌋ : ℚ) :=
          le_trans (Int.le_ceil _) (by exact_mod_cast hcon)
        linarith
      omega
    have hidx_eq : (⌈(p / 100) * ((s.length : ℚ) - 1)⌉).toNat ⊓ (s.length - 1) =
        ((⌊(p / 100) * ((s.length : ℚ) - 1)⌋ + 1) ⊓ ((s.length : ℤ) - 1)).toNat := by
      rw [hne]; omega
    rw [hidx_eq, getD_eq_get_of_lt s _ hlo, getD_eq_get_of_lt s _ hhi]

/-- C5 (witness): the interpolation agreement at the concrete sorted list
`[1, 3]` with `p = 50`. -/
theorem percentile_an_matches_interp_spec_witness :
    percentile_an [1, 3] 50 = .ok (percentileInterpSpec [1, 3] 50) :=
  percentile_an_matches_interp_spec [1, 3] 50 (by simp) (by norm_num) (by norm_num)

/-- The pooled standard deviation computed by `cohens_d` in
`real-analysis.py` lines 168–169, named so the effect-size theorem can
refer to it. -/
def pooledSdRa (sq : ℚ → ℚ) (g1 g2 : List ℚ) (s1 s2 : StatsRa) : ℚ :=
  sq ((((g1.length : ℚ) - 1) * s1.sd ^ 2 + ((g2.length : ℚ) - 1) * s2.sd ^ 2) /
      ((g1.length : ℚ) + (g2.length : ℚ) - 2))

/-- C7 (amended): for `real-analysis.py`'s `cohens_d` with `n1 + n2 > 2`:
a zero pooled SD yields `d = 0, interpretation = "undefined"` without
failing, and otherwise `d = (mean1 - mean2) / pooledSd` with the exact
strict-`<` threshold chain `negligible / small / medium / large` on `|d|`.
(`analyze.py`'s variant instead raises on a zero pooled SD and returns no
interpretation; see the counterexample.) -/
theorem cohens_d_ra_spec (sq : ℚ → ℚ) (g1 g2 : List ℚ) (s1 s2 : StatsRa)
    (h1 : calculate_statistics_ra sq g1 = .ok s1)
    (h2 : calculate_statistics_ra sq g2 = .ok s2)
    (hn : 2 < g1.length + g2.length) :
    (pooledSdRa sq g1 g2 s1 s2 = 0 →
      cohens_d_ra sq g1 g2 = .ok ⟨0, "undefined"⟩) ∧
    (pooledSdRa sq g1 g2 s1 s2 ≠ 0 →
      cohens_d_ra sq g1 g2 = .ok
        ⟨(s1.mean - s2.mean) / pooledSdRa sq g1 g2 s1 s2,
          if |(s1.mean - s2.mean) / pooledSdRa sq g1 g2 s1 s2| < 0.2 then "negligible"
          else if |(s1.mean - s2.mean) / pooledSdRa sq g1 g2 s1 s2| < 0.5 then "small"
          else if |(s1.mean - s2.mean) / pooledSdRa sq g1 g2 s1 s2| < 0.8 then "medium"
          else "large"⟩) := by
  have hb : ((g1.length : ℚ)) + (g2.length : ℚ) - 2 ≠ 0 := by
    have : (3 : ℚ) ≤ (g1.length : ℚ) + (g2.length : ℚ) := by
      have : 3 ≤ g1.length + g2.length := hn
      exact_mod_cast this
    linarith
  constructor
  · intro hz
    simp only [cohens_d_ra, h1, h2, divE, bind_ok, bind_error, pure_eq_ok, hb,
      if_neg hb, ite_false, if_false]
    rw [if_pos]
    exact hz
  · intro hz
    simp only [cohens_d_ra, h1, h2, divE, bind_ok, bind_error, pure_eq_ok, hb,
      if_neg hb, ite_false, if_false]
    rw [if_neg (by exact hz), if_neg (by exact hz)]
    simp only [bind_ok, pure_eq_ok]
    rfl

/-- Helper: the statistics record that `real-analysis.py` produces for
`[1, 3]` under the identity square root. -/
theorem calc_ra_eval_13 :
    calculate_statistics_ra (fun q => q) [1, 3] =
      .ok ⟨2, 2, 1, 3, 1, 3, 3, (1/25, 99/25), 2⟩ := by
  have hc1 : (⌈(1 : ℚ)⌉ : ℤ) = 1 := ceil_eval (by norm_num) (by norm_num)
  have hc2 : (⌈(19/10 : ℚ)⌉ : ℤ) = 2 := ceil_eval (by norm_num) (by norm_num)
  have hc3 : (⌈(99/50 : ℚ)⌉ : ℤ) = 2 := ceil_eval (by norm_num) (by norm_num)
  have h50 : percentile_ra [1, 3] 50 = .ok 1 := percentile_ra_eval 0 1 (by norm_num [hc1]) rfl
  have h95 : percentile_ra [1, 3] 95 = .ok 3 := percentile_ra_eval 1 3 (by norm_num [hc2]) rfl
  have h99 : percentile_ra [1, 3] 99 = .ok 3 := percentile_ra_eval 1 3 (by norm_num [hc3]) rfl
  have hmn : idxE [1, 3] 0 = .ok 1 := idxE_eval rfl
  have hmx : idxE [1, 3] 1 = .ok 3 := idxE_eval rfl
  simp only [calculate_statistics_ra, divE, List.insertionSort, List.orderedInsert,
    bind_ok, bind_error]
  norm_num [bind_ok, bind_error, pure_eq_ok, List.cons_ne_nil, h50, h95, h99, hmn, hmx]

/-- C7 (witness): the effect-size theorem applied to `[0, 2]` vs `[1, 3]`,
where the pooled SD is `2`, `d = -1/4`, and the interpretation is
`"small"`. -/
theorem cohens_d_ra_spec_witness :
    cohens_d_ra (fun q => q) [0, 2] [1, 3] = .ok ⟨-(1/4), "small"⟩ := by
  have h := (cohens_d_ra_spec (fun q => q) [0, 2] [1, 3] _ _
    calc_ra_eval_02 calc_ra_eval_13 (by norm_num)).2
    (by simp only [pooledSdRa]; norm_num)
  rw [h]
  simp only [pooledSdRa]
  norm_num
  rw [abs_of_nonneg (by norm_num : (0:ℚ) ≤ 1/4)]
  norm_num

theorem get?_getD_of_lt (s : List ℚ) (i : ℕ) (h : i < s.length) :
    s.get? i = some (s.getD i 0) := by
  rw [List.get?_eq_get h, getD_eq_get_of_lt s i h]

theorem list_sum_map_getD (l : List ℚ) (f : ℚ → ℚ) :
    (l.map f).sum = ∑ i in Finset.range l.length, f (l.getD i 0) := by
  induction l with
  | nil => simp
  | cons a t ih =>
    rw [List.map_cons, List.sum_cons, ih, List.length_cons, Finset.sum_range_succ']
    simp [add_comm]

theorem gauss_sum (n : ℕ) :
    (∑ i in Finset.range n, ((i : ℚ) + 1)) = (n : ℚ) * ((n : ℚ) + 1) / 2 := by
  induction n with
  | zero => simp
  | succ m ih =>
    rw [Finset.sum_range_succ, ih]
    push_cast
    ring

/-- Helper: summing the tie-averaged rank of every element of the list
itself recovers the plain rank total `1 + 2 + ... + N`: each tie class of
size `c` contributes `c` copies of its average, i.e. the exact sum of its
positions. -/
theorem sum_avgRank_self (s : List ℚ) :
    (s.map (avgRank s)).sum = ∑ i in Finset.range s.length, ((i : ℚ) + 1) := by
  rw [list_sum_map_getD]
  have hget : ∀ i ∈ Finset.range s.length, s.get? i = some (s.getD i 0) := fun i hi =>
    get?_getD_of_lt s i (Finset.mem_range.mp hi)
  calc ∑ i in Finset.range s.length, avgRank s (s.getD i 0)
      = ∑ i in Finset.range s.length,
          ∑ j in (Finset.range s.length).filter (fun j => s.get? j = some (s.getD i 0)),
            (((j : ℚ) + 1) /
              ((Finset.range s.length).filter (fun k => s.get? k = some (s.getD j 0))).card) := by
        refine Finset.sum_congr rfl fun i hi => ?_
        rw [avgRank, Finset.sum_div]
        refine Finset.sum_congr rfl fun j hj => ?_
        obtain ⟨hjr, hjv⟩ := Finset.mem_filter.mp hj
        have hDj : s.getD j 0 = s.getD i 0 := by
          have h2 := hget j hjr
          rw [h2] at hjv
          exact Option.some.inj hjv
        rw [hDj]
    _ = ∑ i in Finset.range s.length, ∑ j in Finset.range s.length,
          (if s.get? j = some (s.getD i 0) then
            ((j : ℚ) + 1) /
              ((Finset.range s.length).filter (fun k => s.get? k = some (s.getD j 0))).card
          else 0) := by
        refine Finset.sum_congr rfl fun i _ => ?_
        rw [Finset.sum_filter]
    _ = ∑ j in Finset.range s.length, ∑ i in Finset.range s.length,
          (if s.get? j = some (s.getD i 0) then
            ((j : ℚ) + 1) /
              ((Finset.range s.length).filter (fun k => s.get? k = some (s.getD j 0))).card
          else 0) := Finset.sum_comm
    _ = ∑ j in Finset.range s.length, ((j : ℚ) + 1) := by
        refine Finset.sum_congr rfl fun j hj => ?_
        rw [← Finset.sum_filter]
        have hfil : (Finset.range s.length).filter (fun i => s.get? j = some (s.getD i 0)) =
            (Finset.range s.length).filter (fun k => s.get? k = some (s.getD j 0)) := by
          refine Finset.filter_congr fun i hi => ?_
          rw [hget j hj, hget i hi]
          constructor
          · intro h
            exact congrArg some (Option.some.inj h).symm
          · intro h
            exact congrArg some (Option.some.inj h).symm
        rw [hfil, Finset.sum_const]
        have hmem : j ∈ (Finset.range s.length).filter
            (fun k => s.get? k = some (s.getD j 0)) :=
          Finset.mem_filter.mpr ⟨hj, hget j hj⟩
        have hcard : (((Finset.range s.length).filter
            (fun k => s.get? k = some (s.getD j 0))).card : ℚ) ≠ 0 := by
          exact_mod_cast Finset.card_ne_zero_of_mem hmem
        rw [nsmul_eq_mul, mul_div_assoc', mul_div_cancel_left₀ _ hcard]

/-- Helper: the sorted combined list does not depend on the order of the
two groups. -/
theorem mwCombined_comm (g1 g2 : List ℚ) : mwCombined g1 g2 = mwCombined g2 g1 := by
  refine List.eq_of_perm_of_sorted ?_ (List.sorted_insertionSort _ _)
    (List.sorted_insertionSort _ _)
  exact (List.perm_insertionSort _ _).trans
    (List.perm_append_comm.trans (List.perm_insertionSort _ _).symm)

theorem mwCombined_length (g1 g2 : List ℚ) :
    (mwCombined g1 g2).length = g1.length + g2.length := by
  rw [mwCombined, (List.perm_insertionSort _ _).length_eq, List.length_append]

/-- Helper: the two groups' rank sums add up to the total rank sum
`N(N+1)/2` of the combined list. -/
theorem mwR_total (g1 g2 : List ℚ) :
    mwR1 g1 g2 + mwR1 g2 g1 =
      ((g1.length : ℚ) + (g2.length : ℚ)) * (((g1.length : ℚ) + (g2.length : ℚ)) + 1) / 2 := by
  rw [mwR1, mwR1, mwCombined_comm g2 g1]
  have happ : (g1.map (avgRank (mwCombined g1 g2))).sum +
      (g2.map (avgRank (mwCombined g1 g2))).sum =
      ((g1 ++ g2).map (avgRank (mwCombined g1 g2))).sum := by
    rw [List.map_append, List.sum_append]
  rw [happ]
  have hperm : ((g1 ++ g2).map (avgRank (mwCombined g1 g2))).sum =
      ((mwCombined g1 g2).map (avgRank (mwCombined g1 g2))).sum :=
    (List.Perm.map _ (List.perm_insertionSort _ _)).symm.sum_eq
  rw [hperm, sum_avgRank_self, mwCombined_length, gauss_sum]
  push_cast
  ring

/-- Helper: swapping the groups sends `U1` to `U2 = n1·n2 - U1`. -/
theorem mwU1_swap (g1 g2 : List ℚ) :
    mwU1 g2 g1 = (g1.length : ℚ) * (g2.length : ℚ) - mwU1 g1 g2 := by
  have h := mwR_total g1 g2
  rw [mwU1, mwU1]
  linear_combination h

/-- C6: for non-empty groups, `mann_whitney_u` satisfies
`U1 = R1 - n1(n1+1)/2`, `U1 + U2 = n1·n2` (with `U2 = n1·n2 - U1`), the
reported `U` is `min(U1, U2)`, and swapping the two group labels yields
the identical result record — in particular the same `U` and the same
p-value. -/
theorem mann_whitney_u_algebra (sq ex : ℚ → ℚ) (g1 g2 : List ℚ)
    (h1 : g1 ≠ []) (h2 : g2 ≠ []) :
    mwU1 g1 g2 = mwR1 g1 g2 - (g1.length : ℚ) * ((g1.length : ℚ) + 1) / 2 ∧
    mwU1 g1 g2 + ((g1.length : ℚ) * (g2.length : ℚ) - mwU1 g1 g2) =
      (g1.length : ℚ) * (g2.length : ℚ) ∧
    (mann_whitney_u sq ex g1 g2).U =
      min (mwU1 g1 g2) ((g1.length : ℚ) * (g2.length : ℚ) - mwU1 g1 g2) ∧
    mann_whitney_u sq ex g2 g1 = mann_whitney_u sq ex g1 g2 := by
  refine ⟨rfl, by ring, rfl, ?_⟩
  have hU := mwU1_swap g1 g2
  have hUeq : min (mwU1 g2 g1) ((g2.length : ℚ) * (g1.length : ℚ) - mwU1 g2 g1) =
      min (mwU1 g1 g2) ((g1.length : ℚ) * (g2.length : ℚ) - mwU1 g1 g2) := by
    rw [hU, show (g2.length : ℚ) * (g1.length : ℚ) -
        ((g1.length : ℚ) * (g2.length : ℚ) - mwU1 g1 g2) = mwU1 g1 g2 from by ring]
    exact min_comm _ _
  have hstd : sq ((g2.length : ℚ) * (g1.length : ℚ) *
        ((g2.length : ℚ) + (g1.length : ℚ) + 1) / 12) =
      sq ((g1.length : ℚ) * (g2.length : ℚ) *
        ((g1.length : ℚ) + (g2.length : ℚ) + 1) / 12) :=
    congrArg sq (by ring)
  have hmean : (g2.length : ℚ) * (g1.length : ℚ) / 2 =
      (g1.length : ℚ) * (g2.length : ℚ) / 2 := by ring
  simp only [mann_whitney_u]
  rw [hUeq, hstd, hmean]

/-- C6 (witness): the Mann-Whitney algebra at the concrete groups
`[1, 2]` and `[3]`. -/
theorem mann_whitney_u_algebra_witness :
    mwU1 [1, 2] [3] = mwR1 [1, 2] [3] -
      (([1, 2] : List ℚ).length : ℚ) * ((([1, 2] : List ℚ).length : ℚ) + 1) / 2 ∧
    mwU1 [1, 2] [3] + ((([1, 2] : List ℚ).length : ℚ) * (([3] : List ℚ).length : ℚ) -
      mwU1 [1, 2] [3]) =
      (([1, 2] : List ℚ).length : ℚ) * (([3] : List ℚ).length : ℚ) ∧
    (mann_whitney_u (fun q => q) (fun _ => 1) [1, 2] [3]).U =
      min (mwU1 [1, 2] [3]) ((([1, 2] : List ℚ).length : ℚ) * (([3] : List ℚ).length : ℚ) -
        mwU1 [1, 2] [3]) ∧
    mann_whitney_u (fun q => q) (fun _ => 1) [3] [1, 2] =
      mann_whitney_u (fun q => q) (fun _ => 1) [1, 2] [3] :=
  mann_whitney_u_algebra (fun q => q) (fun _ => 1) [1, 2] [3] (by simp) (by simp)

/-- Helper: the Abramowitz–Stegun polynomial is non-negative everywhere
(exhibited by a sum-of-squares decomposition). -/
theorem polyAS_nonneg (t : ℚ) : 0 ≤ polyAS t := by
  simp only [polyAS]
  nlinarith [sq_nonneg (t * t - 6845417/10000000 * t), sq_nonneg (t - 1539414/10000000),
    sq_nonneg t, sq_nonneg (t - 1)]

/-- Helper: on `[0, 1]` the Abramowitz–Stegun polynomial is maximised at
`t = 1` (the value taken at `x = 0`). -/
theorem polyAS_le (t : ℚ) (h0 : 0 ≤ t) (h1 : t ≤ 1) : polyAS t ≤ polyAS 1 := by
  have htt : t * t ≤ 1 := by nlinarith
  simp only [polyAS]
  nlinarith [mul_nonneg (sub_nonneg.2 h1) h0,
    mul_nonneg (mul_nonneg (sub_nonneg.2 h1) h0) h0,
    mul_nonneg (mul_nonneg (mul_nonneg (sub_nonneg.2 h1) h0) h0) h0,
    mul_nonneg (sub_nonneg.2 h1) (sub_nonneg.2 htt)]

/-- Helper: the substitution `t = 1 / (1 + 0.2316419·|x|)` always lies in
`(0, 1]`. -/
theorem normal_cdf_t_bounds (x : ℚ) :
    0 < 1 / (1 + 0.2316419 * |x|) ∧ 1 / (1 + 0.2316419 * |x|) ≤ 1 := by
  have habs : 0 ≤ |x| := abs_nonneg x
  have hden : (1 : ℚ) ≤ 1 + 0.2316419 * |x| := by nlinarith
  constructor
  · positivity
  · rw [div_le_one (by linarith)]
    exact hden

/-- C9 (counterexample): with the exact value `exp(0) = 1` that the real
exponential (and Python's `math.exp`) takes, `normal_cdf(0)` is
`0.3989423 · 1.2533137 = 0.49999985…`, not exactly `0.5`. -/
theorem normal_cdf_zero_ne_half : normal_cdf (fun _ => 1) 0 ≠ 1/2 := by
  simp only [normal_cdf, polyAS]
  norm_num

/-- Helper: for any exponential bounded in `[0, 1]` on non-positive
arguments, `normal_cdf` stays within `[0, 1]` for every input. -/
theorem normal_cdf_bounds (ex : ℚ → ℚ)
    (hexb : ∀ y : ℚ, y ≤ 0 → 0 ≤ ex y ∧ ex y ≤ 1) (x : ℚ) :
    0 ≤ normal_cdf ex x ∧ normal_cdf ex x ≤ 1 := by
  have harg : -x * x / 2 ≤ 0 := by nlinarith [sq_nonneg x]
  obtain ⟨hE0, hE1⟩ := hexb _ harg
  obtain ⟨ht0, ht1⟩ := normal_cdf_t_bounds x
  have hpoly0 := polyAS_nonneg (1 / (1 + 0.2316419 * |x|))
  have hpoly1 := polyAS_le (1 / (1 + 0.2316419 * |x|)) ht0.le ht1
  have hp0 : 0 ≤ 0.3989423 * ex (-x * x / 2) * (1 / (1 + 0.2316419 * |x|)) *
      polyAS (1 / (1 + 0.2316419 * |x|)) := by positivity
  have hple : 0.3989423 * ex (-x * x / 2) * (1 / (1 + 0.2316419 * |x|)) *
      polyAS (1 / (1 + 0.2316419 * |x|)) ≤ 0.3989423 * polyAS 1 := by
    nlinarith [mul_nonneg hE0 ht0.le, mul_nonneg ht0.le hpoly0, mul_nonneg hE0 hpoly0]
  have hq : (0.3989423 : ℚ) * polyAS 1 ≤ 1/2 := by
    simp only [polyAS]
    norm_num
  simp only [normal_cdf]
  split_ifs with hx
  · constructor <;> linarith
  · constructor <;> linarith

/-- Helper: the two-sided symmetry `normalCdf(x) + normalCdf(-x) = 1` holds
exactly for `x ≠ 0` and within `3·10⁻⁷` at `x = 0`, hence within the
claimed `10⁻⁶` everywhere (for any exponential with `exp 0 = 1`). -/
theorem normal_cdf_symm (ex : ℚ → ℚ) (hex0 : ex 0 = 1) (x : ℚ) :
    |normal_cdf ex x + normal_cdf ex (-x) - 1| ≤ 1/1000000 := by
  rcases lt_trichotomy x 0 with hx | hx | hx
  · have harg : -(-x) * (-x) / 2 = -x * x / 2 := by ring
    simp only [normal_cdf, harg, abs_neg]
    rw [if_neg (by linarith : ¬ x > 0), if_pos (by linarith : -x > 0)]
    ring_nf
    norm_num
  · subst hx
    simp only [normal_cdf, neg_zero]
    rw [if_neg (by norm_num : ¬ (0:ℚ) > 0), abs_le]
    simp only [polyAS]
    norm_num [hex0]
  · have harg : -(-x) * (-x) / 2 = -x * x / 2 := by ring
    simp only [normal_cdf, harg, abs_neg]
    rw [if_pos (by linarith : x > 0), if_neg (by linarith : ¬ -x > 0)]
    ring_nf
    norm_num

/-- Helper: monotonicity of `normal_cdf` across the sampled grid
`-2 < -1 < 0 < 1 < 2`, for any exponential that takes values in the
(true) ranges `exp(0) = 1`, `exp(-1/2) ∈ [0.6, 0.61]`,
`exp(-2) ∈ [0.13, 0.14]`. -/
theorem normal_cdf_grid (ex : ℚ → ℚ) (hex0 : ex 0 = 1)
    (he1 : 3/5 ≤ ex (-(1/2)) ∧ ex (-(1/2)) ≤ 61/100)
    (he2 : 13/100 ≤ ex (-2) ∧ ex (-2) ≤ 7/50) :
    normal_cdf ex (-2) ≤ normal_cdf ex (-1) ∧
    normal_cdf ex (-1) ≤ normal_cdf ex 0 ∧
    normal_cdf ex 0 ≤ normal_cdf ex 1 ∧
    normal_cdf ex 1 ≤ normal_cdf ex 2 := by
  obtain ⟨he1l, he1u⟩ := he1
  obtain ⟨he2l, he2u⟩ := he2
  refine ⟨?_, ?_, ?_, ?_⟩
  · simp only [normal_cdf, polyAS]
    norm_num
    nlinarith [he1l, he1u, he2l, he2u]
  · simp only [normal_cdf, polyAS]
    norm_num [hex0]
    nlinarith [he1l, he1u, he2l, he2u]
  · simp only [normal_cdf, polyAS]
    norm_num [hex0]
    nlinarith [he1l, he1u, he2l, he2u]
  · simp only [normal_cdf, polyAS]
    norm_num
    nlinarith [he1l, he1u, he2l, he2u]

/-- C9 (amended): for any exponential function with the true exponential's
properties on the arguments used (`exp 0 = 1`, values in `[0,1]` on
non-positive arguments, and the true ranges at `-1/2` and `-2`):
`normal_cdf` maps every input into `[0, 1]`; `normal_cdf 0` equals `0.5`
within `10⁻⁶` (but not exactly — see the counterexample);
`normal_cdf x + normal_cdf (-x) = 1` within `10⁻⁶` for every `x`; and
`normal_cdf` is monotone non-decreasing over the sampled grid
`-2, -1, 0, 1, 2`. -/
theorem normal_cdf_props (ex : ℚ → ℚ) (hex0 : ex 0 = 1)
    (hexb : ∀ y : ℚ, y ≤ 0 → 0 ≤ ex y ∧ ex y ≤ 1)
    (he1 : 3/5 ≤ ex (-(1/2)) ∧ ex (-(1/2)) ≤ 61/100)
    (he2 : 13/100 ≤ ex (-2) ∧ ex (-2) ≤ 7/50) :
    (∀ x : ℚ, 0 ≤ normal_cdf ex x ∧ normal_cdf ex x ≤ 1) ∧
    |normal_cdf ex 0 - 1/2| ≤ 1/1000000 ∧
    (∀ x : ℚ, |normal_cdf ex x + normal_cdf ex (-x) - 1| ≤ 1/1000000) ∧
    (normal_cdf ex (-2) ≤ normal_cdf ex (-1) ∧
      normal_cdf ex (-1) ≤ normal_cdf ex 0 ∧
      normal_cdf ex 0 ≤ normal_cdf ex 1 ∧
      normal_cdf ex 1 ≤ normal_cdf ex 2) := by
  refine ⟨normal_cdf_bounds ex hexb, ?_, normal_cdf_symm ex hex0,
    normal_cdf_grid ex hex0 he1 he2⟩
  rw [abs_le]
  simp only [normal_cdf, polyAS]
  norm_num [hex0]

/-- A concrete rational stand-in for `math.exp` agreeing with the real
exponential exactly at `0` and within the hypothesised ranges at `-1/2`
and `-2`, used to witness the `normal_cdf` theorem. -/
def exWitness : ℚ → ℚ := fun y =>
  if y = 0 then 1
  else if y = -(1/2) then 3/5
  else if y = -2 then 27/200
  else if y ≤ 0 then 1/2
  else 1

/-- C9 (witness): the `normal_cdf` properties instantiated at the concrete
exponential stand-in. -/
theorem normal_cdf_props_witness :
    (∀ x : ℚ, 0 ≤ normal_cdf exWitness x ∧ normal_cdf exWitness x ≤ 1) ∧
    |normal_cdf exWitness 0 - 1/2| ≤ 1/1000000 ∧
    (∀ x : ℚ, |normal_cdf exWitness x + normal_cdf exWitness (-x) - 1| ≤ 1/1000000) ∧
    (normal_cdf exWitness (-2) ≤ normal_cdf exWitness (-1) ∧
      normal_cdf exWitness (-1) ≤ normal_cdf exWitness 0 ∧
      normal_cdf exWitness 0 ≤ normal_cdf exWitness 1 ∧
      normal_cdf exWitness 1 ≤ normal_cdf exWitness 2) := by
  refine normal_cdf_props exWitness (by norm_num [exWitness]) ?_ ?_ ?_
  · intro y hy
    simp only [exWitness]
    split_ifs <;> norm_num
  · constructor <;> norm_num [exWitness]
  · constructor <;> norm_num [exWitness]
